import Mathlib

/-!
Verification of the GEO (Generative Engine Optimization) content pipeline:
a shallow embedding of the TypeScript sources (geo-generator.ts,
ir-generator.ts, cleaner.ts, cache.ts, ai-detector) together with theorems
about the embedded operations.

JavaScript strings are modelled as Lean `String`s (positions and lengths are
code-point based; all characters that occur in the embedded code and in the
concrete inputs below lie in the Basic Multilingual Plane, where JavaScript's
UTF-16 indices agree with code-point indices).
-/

/-! ### JavaScript string primitives -/

/-- Substring test over character lists, used to model `String.prototype.includes`. -/
def listIncludes (pat : List Char) : List Char → Bool
  | [] => pat.isEmpty
  | c :: rest => pat.isPrefixOf (c :: rest) || listIncludes pat rest

/-- Model of JavaScript `s.includes(sub)`. -/
def jsIncludes (s sub : String) : Bool := listIncludes sub.toList s.toList

/-- Model of JavaScript `s.startsWith(p)`. -/
def jsStartsWith (s p : String) : Bool := p.toList.isPrefixOf s.toList

/-- Model of JavaScript `s.toLowerCase()` (the strings it is applied to are ASCII). -/
def lowerStr (s : String) : String := (s.toList.map Char.toLower).asString

/-- Join a list of strings with a separator, modelling `Array.prototype.join`. -/
def joinWith (sep : String) : List String → String
  | [] => ""
  | [a] => a
  | a :: rest => a ++ sep ++ joinWith sep rest

/-- Split a character list on a separator character, keeping empty segments,
modelling `String.prototype.split` with a one-character separator. -/
def splitOnChar (c : Char) : List Char → List (List Char)
  | [] => [[]]
  | ch :: rest =>
      let r := splitOnChar c rest
      if ch = c then [] :: r
      else
        match r with
        | [] => [[ch]]
        | a :: as => (ch :: a) :: as

/-- The decimal digit character for `n < 10`. -/
def natDigitChar (n : Nat) : Char := Char.ofNat (48 + n)

/-- Decimal digits of a number, fuel-based so that it reduces structurally. -/
def natToStrAux : Nat → Nat → List Char
  | 0, _ => []
  | fuel + 1, n =>
      if n < 10 then [natDigitChar n]
      else natToStrAux fuel (n / 10) ++ [natDigitChar (n % 10)]

/-- Decimal rendering of a number, modelling JavaScript number interpolation. -/
def natToStr (n : Nat) : String := (natToStrAux (n + 1) n).asString

/-- Replace every occurrence of the single character `c` by `repl`, modelling a
global single-character regex replace such as `.replace(/&/g, "&amp;")`. -/
def replaceCharL (c : Char) (repl : List Char) : List Char → List Char
  | [] => []
  | ch :: rest => (if ch = c then repl else [ch]) ++ replaceCharL c repl rest

/-- The apostrophe character `U+0027`. -/
def aposChar : Char := Char.ofNat 39

/-- Model of JavaScript string truthiness: of the strings, exactly `""` is falsy. -/
def jsTruthyStr (s : String) : Bool := s ≠ ""

/-! ### geo-generator.ts: `escapeHTML` and `generateMainContent` -/

/-- Embedding of `GeoGenerator.escapeHTML`: sequentially replaces the five
characters and-sign, less-than, greater-than, double quote and apostrophe by
their HTML entities. -/
def escapeHTML (text : String) : String :=
  let l := text.toList
  let l := replaceCharL '&' ("&amp;".toList) l
  let l := replaceCharL '<' ("&lt;".toList) l
  let l := replaceCharL '>' ("&gt;".toList) l
  let l := replaceCharL '"' ("&quot;".toList) l
  let l := replaceCharL aposChar ("&#039;".toList) l
  l.asString

/-- A heading of the IR: `level`, `text` and optional `id`, as produced by
`IRGenerator.safeExtractHeadings`. -/
structure Heading where
  level : Nat
  text : String
  id : Option String
deriving DecidableEq, Repr

/-- The slice of the IR consumed by `GeoGenerator.generateMainContent`. -/
structure MainContentIR where
  headings : List Heading
  paragraphs : List String
deriving DecidableEq, Repr

/-- The opening tag line for a heading in `generateMainContent`; the `id`
attribute is interpolated directly from `heading.id` in the source. -/
def headingOpenTag (h : Heading) : String :=
  "        <h" ++ natToStr h.level ++
    (match h.id with
      | some i => " id=\"" ++ i ++ "\""
      | none => "") ++ ">"

/-- A paragraph line inside a heading section of `generateMainContent`. -/
def paraLineSection (p : String) : String := "        <p>" ++ escapeHTML p ++ "</p>"

/-- A flat paragraph line after all headings in `generateMainContent`. -/
def paraLineFlat (p : String) : String := "      <p>" ++ escapeHTML p ++ "</p>"

/-- The body lines of `generateMainContent`: each heading consumes up to three
of the remaining paragraphs, and leftover paragraphs are emitted flat. -/
def mainContentGo : List Heading → List String → List String
  | [], ps => ps.map paraLineFlat
  | h :: hs, ps =>
      ["      <section>", headingOpenTag h,
       "          " ++ escapeHTML h.text,
       "        </h" ++ natToStr h.level ++ ">"]
      ++ (ps.take 3).map paraLineSection
      ++ ["      </section>"]
      ++ mainContentGo hs (ps.drop 3)

/-- Embedding of `GeoGenerator.generateMainContent`. -/
def generateMainContent (c : MainContentIR) : String :=
  joinWith "\n"
    (["    <main itemprop=\"articleBody\">"]
      ++ mainContentGo c.headings c.paragraphs ++ ["    </main>"])

/-- A heading id containing a double quote, used to exhibit unescaped interpolation. -/
def demoHeadingId : String := "a\"b"

/-- A one-heading IR fragment whose heading id contains a double quote. -/
def demoMainIR : MainContentIR :=
  { headings := [{ level := 2, text := "T", id := some demoHeadingId }], paragraphs := [] }

/-! ### The URL model

`new URL(...)`, `searchParams` and `toString()` are platform primitives, not
repository code.  They are modelled for hierarchical `scheme://host/path?query#hash`
URLs, which is the shape of every URL the embedded functions are applied to. -/

/-- A parsed URL: protocol (with trailing colon), host, pathname, search
parameters in order, and fragment (with leading hash sign when present). -/
structure JSURL where
  protocol : String
  host : String
  pathname : String
  params : List (String × String)
  hash : String
deriving DecidableEq, Repr

/-- Split a character list at the first occurrence of `sep`, returning the
parts before and after it. -/
def splitFirstL (sep : List Char) : List Char → Option (List Char × List Char)
  | [] => none
  | c :: rest =>
      if sep ≠ [] ∧ sep.isPrefixOf (c :: rest) then
        some ([], (c :: rest).drop sep.length)
      else
        match splitFirstL sep rest with
        | some (a, b) => some (c :: a, b)
        | none => none

/-- Split a string at the first occurrence of `sep`. -/
def splitFirst (s sep : String) : Option (String × String) :=
  (splitFirstL sep.toList s.toList).map (fun p => (p.1.asString, p.2.asString))

/-- Parse a query string into its ordered key/value pairs. -/
def parseQuery (q : String) : List (String × String) :=
  if q = "" then []
  else
    ((splitOnChar '&' q.toList).map List.asString).filterMap (fun kv =>
      if kv = "" then none
      else
        match splitFirst kv "=" with
        | some (k, v) => some (k, v)
        | none => some (kv, ""))

/-- Model of `new URL(s)` for hierarchical URLs: succeeds on
`scheme://host[/path][?query][#hash]` with an alphabetic scheme and a
non-empty host, and fails (the constructor throws) otherwise. -/
def parseURL (s : String) : Option JSURL :=
  match splitFirst s "://" with
  | none => none
  | some (scheme, rest) =>
      if scheme = "" ∨ !(scheme.toList.all Char.isAlpha) then none
      else
        let hashParts := match splitFirst rest "#" with
          | some (a, b) => (a, "#" ++ b)
          | none => (rest, "")
        let queryParts := match splitFirst hashParts.1 "?" with
          | some (a, b) => (a, b)
          | none => (hashParts.1, "")
        let hostPath := match splitFirst queryParts.1 "/" with
          | some (a, b) => (a, "/" ++ b)
          | none => (queryParts.1, "/")
        if hostPath.1 = "" then none
        else
          some { protocol := lowerStr scheme ++ ":"
                 host := hostPath.1
                 pathname := hostPath.2
                 params := parseQuery queryParts.2
                 hash := hashParts.2 }

/-- Model of `URL.prototype.toString` for the URL model. -/
def serializeURL (u : JSURL) : String :=
  u.protocol ++ "//" ++ u.host ++ u.pathname ++
    (if u.params.isEmpty then ""
     else "?" ++ joinWith "&" (u.params.map (fun p => p.1 ++ "=" ++ p.2))) ++
    u.hash

/-! ### ir-generator.ts: `normalizeURL` -/

/-- Embedding of `IRGenerator.normalizeURL`.  The source tests
`src.startsWith("/")` before `src.startsWith("//")`, so the protocol-relative
branch is only reached when the first branch does not match. -/
def normalizeURL (src : String) (baseUrl : String) : Option String :=
  if jsStartsWith src "/" then
    match parseURL baseUrl with
    | some u => some (u.protocol ++ "//" ++ u.host ++ src)
    | none => none
  else if jsStartsWith src "//" then
    some ("https:" ++ src)
  else if jsStartsWith src "http" then
    some src
  else
    none

/-! ### cache.ts: `Cache.generateKey` -/

/-- The query parameters removed by `Cache.generateKey`. -/
def paramsToRemove : List String :=
  ["utm_source", "utm_medium", "utm_campaign", "fbclid", "_t"]

/-- Embedding of the static `Cache.generateKey`: parse the URL, delete the
tracking parameters, re-serialize; fall back to the raw string when parsing
fails. -/
def generateKey (url : String) : String :=
  match parseURL url with
  | some u =>
      serializeURL { u with params := u.params.filter (fun kv => !(paramsToRemove.contains kv.1)) }
  | none => url

/-! ### cache.ts: the `Cache` class

The JavaScript `Map` is modelled as an association list in insertion order:
`set` on an existing key replaces its value in place, `set` on a fresh key
appends, and iteration order is list order.  `Date.now()` is passed in
explicitly as `now`. -/

/-- A cache entry: `data`, insertion `timestamp` and `expiresAt`. -/
structure CacheItem (T : Type) where
  data : T
  timestamp : Nat
  expiresAt : Nat
deriving DecidableEq, Repr

/-- The cache configuration: TTL in seconds, maximum entry count, enable flag. -/
structure CacheConfig where
  ttl : Nat
  maxSize : Nat
  enabled : Bool
deriving DecidableEq, Repr

/-- The default configuration of `Cache`. -/
def DEFAULT_CACHE_CONFIG : CacheConfig := { ttl := 3600, maxSize := 1000, enabled := true }

/-- The mutable state of a `Cache` instance: the entry map and the counters. -/
structure CacheState (T : Type) where
  entries : List (String × CacheItem T)
  hits : Nat
  misses : Nat
deriving DecidableEq, Repr

/-- A freshly constructed cache. -/
def emptyCache {T : Type} : CacheState T := { entries := [], hits := 0, misses := 0 }

/-- `Map.prototype.get`. -/
def mapGet {T} (l : List (String × CacheItem T)) (k : String) : Option (CacheItem T) :=
  (l.find? (fun e => e.1 == k)).map (fun e => e.2)

/-- `Map.prototype.set`: replaces in place when the key exists, appends otherwise. -/
def mapSet {T} (l : List (String × CacheItem T)) (k : String) (v : CacheItem T) :
    List (String × CacheItem T) :=
  if l.any (fun e => e.1 == k) then l.map (fun e => if e.1 == k then (k, v) else e)
  else l ++ [(k, v)]

/-- `Map.prototype.delete` (as used for state: drops the entry when present). -/
def mapDelete {T} (l : List (String × CacheItem T)) (k : String) : List (String × CacheItem T) :=
  l.filter (fun e => e.1 != k)

/-- Embedding of `Cache.get`: disabled caches always miss, an absent key is a
miss, an expired entry (`now > expiresAt`) is deleted and counted as a miss,
and otherwise the entry's data is returned as a hit. -/
def cacheGet {T} (cfg : CacheConfig) (s : CacheState T) (now : Nat) (key : String) :
    Option T × CacheState T :=
  if !cfg.enabled then (none, s)
  else
    match mapGet s.entries key with
    | none => (none, { s with misses := s.misses + 1 })
    | some item =>
        if item.expiresAt < now then
          (none, { s with entries := mapDelete s.entries key, misses := s.misses + 1 })
        else
          (some item.data, { s with hits := s.hits + 1 })

/-- The loop of `Cache.evictOldest`: `acc` is the running
`(oldestKey, oldestTime)` pair, `none` standing for the initial
`null` / `Infinity`; an entry replaces it only when strictly older. -/
def scanOldest {T} : List (String × CacheItem T) → Option (String × Nat) → Option (String × Nat)
  | [], acc => acc
  | e :: rest, acc =>
      scanOldest rest
        (match acc with
          | none => some (e.1, e.2.timestamp)
          | some kt => if e.2.timestamp < kt.2 then some (e.1, e.2.timestamp) else some kt)

/-- Embedding of `Cache.evictOldest`; the final `if (oldestKey)` guard is
falsy both for `null` and for the empty-string key, in which case nothing is
deleted. -/
def evictOldest {T} (s : CacheState T) : CacheState T :=
  match scanOldest s.entries none with
  | none => s
  | some kt => if kt.1 = "" then s else { s with entries := mapDelete s.entries kt.1 }

/-- The TTL applied by `set`: `ttl || this.config.ttl`, so an absent or zero
argument falls back to the configured TTL. -/
def actualTTL (cfg : CacheConfig) (ttlArg : Option Nat) : Nat :=
  match ttlArg with
  | some t => if t = 0 then cfg.ttl else t
  | none => cfg.ttl

/-- Embedding of `Cache.set`: when the current size has reached `maxSize` it
first runs `evictOldest`, then stores the new entry. -/
def cacheSet {T} (cfg : CacheConfig) (s : CacheState T) (now : Nat) (key : String)
    (v : T) (ttlArg : Option Nat) : CacheState T :=
  if !cfg.enabled then s
  else
    let s1 := if cfg.maxSize ≤ s.entries.length then evictOldest s else s
    let item : CacheItem T :=
      { data := v, timestamp := now, expiresAt := now + actualTTL cfg ttlArg * 1000 }
    { s1 with entries := mapSet s1.entries key item }

/-- Embedding of `Cache.delete`'s effect on the state. -/
def cacheDelete {T} (s : CacheState T) (key : String) : CacheState T :=
  { s with entries := mapDelete s.entries key }

/-- Embedding of `Cache.clear`. -/
def cacheClear {T} (s : CacheState T) : CacheState T :=
  { s with entries := [], hits := 0, misses := 0 }

/-- The outcome of a `getOrSet` call: the returned value, the new state, and
how many times the factory ran during the call. -/
structure GetOrSetResult (T : Type) where
  value : T
  state : CacheState T
  factoryCalls : Nat
deriving DecidableEq, Repr

/-- Embedding of `Cache.getOrSet` with a pure factory producing `factoryVal`.
`truthy` is JavaScript truthiness at type `T`: the source tests the cached
value with `if (cached)`, so a falsy cached value falls through to the
factory. -/
def getOrSet {T} (cfg : CacheConfig) (truthy : T → Bool) (s : CacheState T) (now : Nat)
    (key : String) (factoryVal : T) (ttlArg : Option Nat) : GetOrSetResult T :=
  let r := cacheGet cfg s now key
  match r.1 with
  | some v =>
      if truthy v then { value := v, state := r.2, factoryCalls := 0 }
      else
        { value := factoryVal, state := cacheSet cfg r.2 now key factoryVal ttlArg,
          factoryCalls := 1 }
  | none =>
      { value := factoryVal, state := cacheSet cfg r.2 now key factoryVal ttlArg,
        factoryCalls := 1 }

/-- The public operations of the cache, for stating state invariants. -/
inductive CacheOp (T : Type) where
  | get (now : Nat) (key : String)
  | set (now : Nat) (key : String) (v : T) (ttlArg : Option Nat)
  | del (key : String)
  | clear
deriving DecidableEq, Repr

/-- Apply one public cache operation to the state. -/
def applyOp {T} (cfg : CacheConfig) (s : CacheState T) : CacheOp T → CacheState T
  | .get now k => (cacheGet cfg s now k).2
  | .set now k v t => cacheSet cfg s now k v t
  | .del k => cacheDelete s k
  | .clear => cacheClear s

/-- Run a sequence of public cache operations. -/
def runOps {T} (cfg : CacheConfig) (s : CacheState T) (ops : List (CacheOp T)) : CacheState T :=
  ops.foldl (applyOp cfg) s

/-- Insert a list of `(key, value, time)` triples via `set` with default TTL. -/
def setAll {T} (cfg : CacheConfig) : CacheState T → List (String × T × Nat) → CacheState T
  | s, [] => s
  | s, e :: rest => setAll cfg (cacheSet cfg s e.2.2 e.1 e.2.1 none) rest

/-- The entry that `set` with default TTL stores for a `(key, value, time)` triple. -/
def mkCacheItem {T} (cfg : CacheConfig) (e : String × T × Nat) : CacheItem T :=
  { data := e.2.1, timestamp := e.2.2, expiresAt := e.2.2 + cfg.ttl * 1000 }

/-- A capacity-one configuration used in the eviction counterexamples. -/
def tinyCacheCfg : CacheConfig := { ttl := 3600, maxSize := 1, enabled := true }

/-! ### ai-detector: the `AIDetector` class

A request is modelled by the signals the detector reads: the relevant headers
(`Headers.get` returning `null` for an absent header) and the URL's query
parameters in order (`searchParams.get` returning the first binding). -/

/-- The fixed allow-list `AI_USER_AGENTS` of known AI/crawler tokens. -/
def AI_USER_AGENTS : List String :=
  ["ChatGPT-User", "OAI-SearchBot", "GPTBot",
   "ClaudeBot", "Claude-User", "claude-web", "anthropic-ai",
   "Google-Extended", "GoogleOther", "Google-CloudVertexBot",
   "BingBot",
   "PerplexityBot", "Perplexity-User",
   "meta-externalagent", "meta-externalfetcher", "FacebookBot", "facebookexternalhit",
   "Amazonbot",
   "Applebot", "Applebot-Extended",
   "Bytespider",
   "CCBot", "cohere-ai", "ImagesiftBot", "Diffbot", "YouBot", "LinkedInBot"]

/-- The `SUSPICIOUS_USER_AGENTS` list. -/
def SUSPICIOUS_USER_AGENTS : List String := ["python-requests", "curl", "wget"]

/-- The detector configuration (`customAIUserAgents` defaulted to the empty
list as `this.config.customAIUserAgents || []` does). -/
structure AIDetectorConfig where
  strictMode : Bool
  checkSuspicious : Bool
  customAIUserAgents : List String
deriving DecidableEq, Repr

/-- The default detector configuration: strict mode on. -/
def DEFAULT_AI_CONFIG : AIDetectorConfig :=
  { strictMode := true, checkSuspicious := false, customAIUserAgents := [] }

/-- The request signals read by the detector. -/
structure AIRequest where
  userAgent : Option String
  accept : Option String
  xAiRequest : Option String
  xBotType : Option String
  xAiAgent : Option String
  query : List (String × String)
deriving DecidableEq, Repr

/-- Model of `url.searchParams.get name`: the first binding, or `null`. -/
def queryGet (req : AIRequest) (name : String) : Option String :=
  (req.query.find? (fun kv => kv.1 == name)).map (fun kv => kv.2)

/-- Embedding of `AIDetector.checkUserAgent`: `some true` for a confirmed AI
user agent, `none` for a suspicious one (when that check is enabled),
`some false` otherwise — and directly `some false` for an absent or empty
`User-Agent` (the source's browser test returns `false` on both of its
branches). -/
def checkUserAgent (cfg : AIDetectorConfig) (req : AIRequest) : Option Bool :=
  let userAgent := (req.userAgent.map lowerStr).getD ""
  if userAgent = "" then some false
  else
    let allAIUserAgents := AI_USER_AGENTS ++ cfg.customAIUserAgents
    if allAIUserAgents.any (fun kw => jsIncludes userAgent (lowerStr kw)) then some true
    else if cfg.checkSuspicious &&
        SUSPICIOUS_USER_AGENTS.any (fun kw => jsIncludes userAgent (lowerStr kw)) then none
    else some false

/-- Embedding of `AIDetector.checkAcceptHeader`. -/
def checkAcceptHeader (req : AIRequest) : Bool :=
  let accept := (req.accept.map lowerStr).getD ""
  let prefersStructured :=
    jsIncludes accept "application/json" || jsIncludes accept "application/ld+json" ||
      (jsIncludes accept "text/plain" && !(jsIncludes accept "text/html"))
  let noHTML := !(jsIncludes accept "text/html")
  prefersStructured && noHTML

/-- Embedding of `AIDetector.checkCustomHeaders`. -/
def checkCustomHeaders (req : AIRequest) : Bool :=
  (req.xAiRequest == some "true" || req.xAiRequest == some "1") ||
    (req.xBotType == some "ai" || req.xBotType == some "llm") ||
    req.xAiAgent.isSome

/-- Embedding of `AIDetector.checkQueryParams`. -/
def checkQueryParams (req : AIRequest) : Bool :=
  queryGet req "ai" == some "true" || queryGet req "bot" == some "1" ||
    queryGet req "format" == some "geo" || queryGet req "geo" == some "1"

/-- Embedding of `AIDetector.isAI`: a confirmed AI user agent is conclusive;
in strict mode a confirmed non-AI user agent still defers to the explicit
header/query declarations; otherwise custom headers, query parameters and
(outside strict mode) the `Accept` heuristic are consulted in turn. -/
def isAI (cfg : AIDetectorConfig) (req : AIRequest) : Bool :=
  let uaResult := checkUserAgent cfg req
  if uaResult = some true then true
  else if cfg.strictMode ∧ uaResult = some false then
    checkCustomHeaders req || checkQueryParams req
  else
    if checkCustomHeaders req then true
    else if checkQueryParams req then true
    else if !cfg.strictMode && checkAcceptHeader req then true
    else false

/-- A request with no `User-Agent` and the query `?format=geo`. -/
def demoGeoRequest : AIRequest :=
  { userAgent := none, accept := none, xAiRequest := none, xBotType := none,
    xAiAgent := none, query := [("format", "geo")] }

/-! ### cleaner.ts: `convertToStrictType` -/

/-- The raw extraction result returned by the Readability primitive: every
field nullable. -/
structure ReadabilityResult where
  title : Option String
  content : Option String
  textContent : Option String
  length : Option Int
  excerpt : Option String
  byline : Option String
  dir : Option String
  siteName : Option String
  lang : Option String
  publishedTime : Option String
deriving DecidableEq, Repr

/-- The strict `CleanedArticle` shape (`ParsedArticle` in the source): the
required fields non-null, the rest optional. -/
structure ParsedArticle where
  title : String
  content : String
  textContent : String
  length : Int
  excerpt : Option String
  byline : Option String
  dir : Option String
  siteName : Option String
  lang : Option String
  publishedTime : Option String
deriving DecidableEq, Repr

/-- JavaScript falsiness of a nullable string field: `null`/`undefined` or `""`. -/
def strFalsy : Option String → Bool
  | none => true
  | some s => s = ""

/-- Embedding of `HTMLCleaner.convertToStrictType`: `null` when `title`,
`content` or `textContent` is falsy, `null` when the `length` field is null or
below 50, and otherwise the strict article with the optional fields carried
over (`?? undefined`). -/
def convertToStrictType (r : ReadabilityResult) : Option ParsedArticle :=
  match r.title, r.content, r.textContent with
  | some t, some c, some tc =>
      if t = "" || c = "" || tc = "" then none
      else
        match r.length with
        | none => none
        | some len =>
            if len < 50 then none
            else
              some { title := t, content := c, textContent := tc, length := len,
                     excerpt := r.excerpt, byline := r.byline, dir := r.dir,
                     siteName := r.siteName, lang := r.lang,
                     publishedTime := r.publishedTime }
  | _, _, _ => none

/-- A raw result whose `textContent` has length 1 but whose `length` field
reports 100. -/
def shortTextResult : ReadabilityResult :=
  { title := some "t", content := some "<p>c</p>", textContent := some "x",
    length := some 100, excerpt := none, byline := none, dir := none,
    siteName := none, lang := none, publishedTime := none }

/-- A raw result accepted by the strict conversion. -/
def goodResult : ReadabilityResult :=
  { title := some "T", content := some "<p>C</p>", textContent := some "body text",
    length := some 120, excerpt := none, byline := none, dir := none,
    siteName := none, lang := none, publishedTime := none }

/-- The strict article produced from `goodResult`. -/
def goodArticle : ParsedArticle :=
  { title := "T", content := "<p>C</p>", textContent := "body text",
    length := 120, excerpt := none, byline := none, dir := none,
    siteName := none, lang := none, publishedTime := none }

/-! ### cleaner.ts: `fetchHTMLWithRetry`

The transport is a mock indexed by attempt number; the model records the
result, the number of transport attempts made, and the backoff delays
awaited. -/

/-- The outcome of one transport attempt: an HTTP response (status, content
type header, body) or a network/timeout error. -/
inductive FetchOutcome where
  | resp (status : Nat) (contentType : Option String) (body : String)
  | netErr (msg : String)
deriving DecidableEq, Repr

/-- The errors thrown by `fetchHTMLWithRetry`: the `HTMLCleanerError`s
`NOT_FOUND`, `HTTP_ERROR`, `INVALID_CONTENT_TYPE` and `FETCH_FAILED` (the
latter wrapping the last underlying error), and the plain errors thrown to
trigger a retry on a retryable status or a network failure. -/
inductive FetchThrown where
  | notFound
  | httpClientError (status : Nat)
  | invalidContentType (contentType : Option String)
  | httpRetry (status : Nat)
  | network (msg : String)
  | fetchFailed (last : FetchThrown)
deriving DecidableEq, Repr

/-- `response.ok`: status in the 2xx range. -/
def respOk (status : Nat) : Bool := 200 ≤ status && status < 300

/-- `contentType?.includes("text/html")`, with an absent header falsy. -/
def ctIncludesHtml : Option String → Bool
  | some ct => jsIncludes ct "text/html"
  | none => false

/-- The try-block of one attempt of `fetchHTMLWithRetry`: a 2xx HTML response
returns the body; every other case throws, the boolean marking whether the
thrown error is an `HTMLCleanerError` (rethrown by the catch block without
retry): wrong content type on a 2xx, 404, and other 4xx excluding 429/403;
remaining statuses and network errors throw plain retryable errors. -/
def classifyAttempt : FetchOutcome → Except (FetchThrown × Bool) String
  | .resp status ct body =>
      if respOk status then
        if ctIncludesHtml ct then .ok body
        else .error (.invalidContentType ct, true)
      else if status = 404 then .error (.notFound, true)
      else if 400 ≤ status ∧ status < 500 ∧ status ≠ 429 ∧ status ≠ 403 then
        .error (.httpClientError status, true)
      else .error (.httpRetry status, false)
  | .netErr msg => .error (.network msg, false)

/-- The observable trace of a `fetchHTMLWithRetry` call. -/
structure FetchTrace where
  result : Except FetchThrown String
  attempts : Nat
  delays : List Nat
deriving Repr

/-- The retry loop of `fetchHTMLWithRetry`, at attempt index `attempt` with
`remaining` further attempts allowed.  On the final attempt the loop breaks
and wraps the error as `FETCH_FAILED`; before that, an `HTMLCleanerError` is
rethrown immediately, while a plain error waits `1000 · 2^attempt` ms and
retries. -/
def fetchGo (transport : Nat → FetchOutcome) (attempt : Nat) : Nat → FetchTrace
  | 0 =>
      match classifyAttempt (transport attempt) with
      | .ok body => { result := .ok body, attempts := attempt + 1, delays := [] }
      | .error e =>
          { result := .error (.fetchFailed e.1), attempts := attempt + 1, delays := [] }
  | remaining + 1 =>
      match classifyAttempt (transport attempt) with
      | .ok body => { result := .ok body, attempts := attempt + 1, delays := [] }
      | .error e =>
          if e.2 then { result := .error e.1, attempts := attempt + 1, delays := [] }
          else
            let r := fetchGo transport (attempt + 1) remaining
            { result := r.result, attempts := r.attempts,
              delays := 1000 * 2 ^ attempt :: r.delays }

/-- Embedding of `fetchHTMLWithRetry` with its default `maxRetries = 3`. -/
def fetchHTMLWithRetry (transport : Nat → FetchOutcome) (maxRetries : Nat := 3) : FetchTrace :=
  fetchGo transport 0 maxRetries

/-- An outcome whose error takes the plain-`Error` path and is retried
(5xx, 429, 403, other non-2xx non-4xx statuses, network/timeout errors). -/
def retryableOutcome (o : FetchOutcome) : Bool :=
  match classifyAttempt o with
  | .error e => !e.2
  | .ok _ => false

/-! ### ir-generator.ts: `generateExcerpt` -/

/-- Model of JavaScript `s.trim()`: strip leading and trailing whitespace. -/
def jsTrim (s : String) : String :=
  (((s.toList.dropWhile Char.isWhitespace).reverse.dropWhile Char.isWhitespace).reverse).asString

/-- The last index of the list at which `p` holds, or `none`. -/
def lastIdxP (p : Char → Bool) : List Char → Option Nat
  | [] => none
  | c :: rest =>
      match lastIdxP p rest with
      | some i => some (i + 1)
      | none => if p c then some 0 else none

/-- Convert an optional index to the JavaScript convention: `-1` for absent. -/
def idxToInt : Option Nat → Int
  | some i => (i : Int)
  | none => -1

/-- Model of JavaScript `s.lastIndexOf(c)` for a one-character needle: the
largest index of `c`, or `-1`. -/
def jsLastIndexOf (l : List Char) (c : Char) : Int :=
  idxToInt (lastIdxP (fun ch => ch == c) l)

/-- The CJK full stop `。` (U+3002). -/
def cjkPeriod : Char := Char.ofNat 0x3002

/-- The Latin full stop `.` (U+002E). -/
def latinPeriod : Char := Char.ofNat 46

/-- The fullwidth exclamation mark `！` (U+FF01). -/
def fwExclaim : Char := Char.ofNat 0xFF01

/-- The fullwidth question mark `？` (U+FF1F). -/
def fwQuestion : Char := Char.ofNat 0xFF1F

/-- Embedding of `IRGenerator.generateExcerpt` (default `maxLength = 200`):
trim; return short text unchanged; otherwise truncate to `maxLength`
characters, take `Math.max` of the `lastIndexOf` of the four marks `。`, `.`,
`！`, `？`, cut inclusively there when the index exceeds 50, and otherwise
append an ASCII ellipsis. -/
def generateExcerpt (text : String) (maxLength : Nat := 200) : String :=
  let cleaned := jsTrim text
  if cleaned.length ≤ maxLength then cleaned
  else
    let truncated := cleaned.toList.take maxLength
    let lastPeriod :=
      max (max (max (jsLastIndexOf truncated cjkPeriod) (jsLastIndexOf truncated latinPeriod))
        (jsLastIndexOf truncated fwExclaim)) (jsLastIndexOf truncated fwQuestion)
    if 50 < lastPeriod then (truncated.take (lastPeriod.toNat + 1)).asString
    else truncated.asString ++ "..."

/-- The `metadata.excerpt` field as built by `IRGenerator.generate`:
`article.excerpt || this.generateExcerpt(article.textContent)`, so a missing
or empty upstream excerpt falls back to the derived one. -/
def metadataExcerpt (upstream : Option String) (textContent : String) : String :=
  match upstream with
  | some e => if e = "" then generateExcerpt textContent else e
  | none => generateExcerpt textContent

/-- The excerpt the claim describes, written independently of the embedding:
the set of sentence-terminal marks contains both the CJK and the Latin
period, exclamation and question marks, and the cut point is the largest
index of the truncation holding such a mark. -/
def excerptClaim (text : String) : String :=
  let cleaned := jsTrim text
  if cleaned.length ≤ 200 then cleaned
  else
    let truncated := cleaned.toList.take 200
    match lastIdxP (fun ch =>
        ((((ch == cjkPeriod || ch == latinPeriod) || ch == fwExclaim) || ch == fwQuestion)
          || ch == Char.ofNat 33) || ch == Char.ofNat 63) truncated with
    | some i =>
        if 50 < i then (truncated.take (i + 1)).asString else truncated.asString ++ "..."
    | none => truncated.asString ++ "..."

/-- The amended excerpt: as the claim, but with the mark set restricted to
the four marks the code searches for — CJK or Latin period, and the
fullwidth (CJK) exclamation and question marks only. -/
def excerptAmended (text : String) : String :=
  let cleaned := jsTrim text
  if cleaned.length ≤ 200 then cleaned
  else
    let truncated := cleaned.toList.take 200
    match lastIdxP (fun ch =>
        ((ch == cjkPeriod || ch == latinPeriod) || ch == fwExclaim) || ch == fwQuestion)
        truncated with
    | some i =>
        if 50 < i then (truncated.take (i + 1)).asString else truncated.asString ++ "..."
    | none => truncated.asString ++ "..."

/-- A 211-character text whose only sentence-terminal mark is a Latin
exclamation mark at index 60. -/
def demoLongText : String :=
  (List.replicate 60 'a' ++ [Char.ofNat 33] ++ List.replicate 150 'b').asString

/-- The maximum of two optional indices, `none` for absent. -/
def omaxNat : Option Nat → Option Nat → Option Nat
  | none, b => b
  | some x, none => some x
  | some x, some y => some (max x y)

/-! ### Theorems -/

/-- C1: the claim that every content-derived string field — heading ids among
them — appears in the generated HTML only after HTML-escaping fails on the
code: `generateMainContent` interpolates `heading.id` into the `id` attribute
without `escapeHTML`, so an id containing a double quote reaches the output
verbatim and its escaped form does not occur. -/
theorem C1_heading_id_interpolated_unescaped :
    jsIncludes (generateMainContent demoMainIR) ("id=\"" ++ demoHeadingId ++ "\"") = true ∧
    escapeHTML demoHeadingId = "a&quot;b" ∧
    jsIncludes (generateMainContent demoMainIR) (escapeHTML demoHeadingId) = false := by
  refine ⟨by decide, by decide, by decide⟩

/-- C2: the claim that an `<img>` source starting with `//` is normalized to
`https:` followed by that source fails on the code: `normalizeURL` tests
`startsWith("/")` before `startsWith("//")`, so a protocol-relative source is
resolved against the page's protocol and host instead; moreover the
`startsWith("http")` test keeps a source such as `httpz://…` that is not
absolute `http(s)://`. -/
theorem C2_protocol_relative_resolved_against_page_origin :
    normalizeURL "//cdn.example.com/a.png" "http://site.com/page"
      = some "http://site.com//cdn.example.com/a.png" ∧
    normalizeURL "httpz://evil.example/x" "http://site.com/page"
      = some "httpz://evil.example/x" := by
  refine ⟨by decide, by decide⟩

/-- C6 counterexample: `generateKey` only strips `utm_source`, `utm_medium`,
`utm_campaign`, `fbclid` and `_t`; two URLs that differ only in the tracking
parameter `utm_content` (a `utm_*` parameter per the claim) receive different
keys. -/
theorem C6_counterexample :
    generateKey "http://a.com/x?utm_content=1" = "http://a.com/x?utm_content=1" ∧
    generateKey "http://a.com/x" = "http://a.com/x" ∧
    generateKey "http://a.com/x?utm_content=1" ≠ generateKey "http://a.com/x" := by
  refine ⟨by decide, by decide, by decide⟩

/-- C6 amended: for well-formed URLs that differ only in parameters of the
fixed list `utm_source, utm_medium, utm_campaign, fbclid, _t`, `generateKey`
produces identical keys; a string that fails URL parsing is returned
unchanged. -/
theorem C6_amended :
    (∀ u1 u2 p1 p2, parseURL u1 = some p1 → parseURL u2 = some p2 →
      p1.protocol = p2.protocol → p1.host = p2.host → p1.pathname = p2.pathname →
      p1.hash = p2.hash →
      p1.params.filter (fun kv => !(paramsToRemove.contains kv.1)) =
        p2.params.filter (fun kv => !(paramsToRemove.contains kv.1)) →
      generateKey u1 = generateKey u2) ∧
    (∀ u, parseURL u = none → generateKey u = u) := by
  constructor
  · intro u1 u2 p1 p2 h1 h2 hp hh hpath hhash hq
    unfold generateKey
    rw [h1, h2]
    simp only [serializeURL, hp, hh, hpath, hhash, hq]
  · intro u hu
    unfold generateKey
    rw [hu]

/-- C6 amended, witnessed at concrete inputs: two URLs differing only in
`utm_source` versus `fbclid` noise receive the same key, and a malformed URL
is its own key. -/
theorem C6_amended_witness :
    generateKey "http://a.com/x?utm_source=z&id=5" = generateKey "http://a.com/x?id=5&fbclid=q" ∧
    generateKey "not a url" = "not a url" := by
  constructor
  · exact C6_amended.1 "http://a.com/x?utm_source=z&id=5" "http://a.com/x?id=5&fbclid=q"
      { protocol := "http:", host := "a.com", pathname := "/x",
        params := [("utm_source", "z"), ("id", "5")], hash := "" }
      { protocol := "http:", host := "a.com", pathname := "/x",
        params := [("id", "5"), ("fbclid", "q")], hash := "" }
      (by decide) (by decide) rfl rfl rfl rfl (by decide)
  · exact C6_amended.2 "not a url" (by decide)

/-- C7 counterexample: `getOrSet` tests the cached value with `if (cached)`,
so when the factory produces the (falsy) empty string, a second sequential
call for the same key — the first having succeeded and the entry being
unexpired — invokes the factory again: two invocations in total, not at most
one. -/
theorem C7_counterexample :
    (getOrSet DEFAULT_CACHE_CONFIG jsTruthyStr emptyCache 0 "k" "" none).factoryCalls +
      (getOrSet DEFAULT_CACHE_CONFIG jsTruthyStr
        (getOrSet DEFAULT_CACHE_CONFIG jsTruthyStr emptyCache 0 "k" "" none).state
        1 "k" "" none).factoryCalls = 2 := by
  decide

/-- C8 counterexample: with `maxSize = 1`, after inserting the two distinct
keys `""` and `"k"` (no expiry), the earliest-inserted key `""` is still
retrievable — `evictOldest` computes `oldestKey = ""`, the `if (oldestKey)`
guard is falsy, and nothing is evicted. -/
theorem C8_counterexample :
    (cacheGet tinyCacheCfg
        (cacheSet tinyCacheCfg (cacheSet tinyCacheCfg emptyCache 0 "" "a" none) 1 "k" "b" none)
        2 "").1 = some "a" ∧
    (cacheSet tinyCacheCfg (cacheSet tinyCacheCfg emptyCache 0 "" "a" none)
        1 "k" "b" none).entries.length = 2 := by
  refine ⟨by decide, by decide⟩

/-- C10 counterexample: with `maxSize = 1`, setting the key `""` and then a
second key leaves two entries in the cache — the `size ≤ maxSize` invariant
fails because `evictOldest` skips the falsy empty-string oldest key. -/
theorem C10_counterexample :
    tinyCacheCfg.maxSize = 1 ∧
    (runOps tinyCacheCfg emptyCache
        [CacheOp.set 0 "" "a" none, CacheOp.set 1 "k" "b" none]).entries.length = 2 := by
  refine ⟨by decide, by decide⟩

/-- C3: for every configuration (the default strict mode included) and every
request carrying no `User-Agent` header, a query parameter `format=geo`,
`ai=true`, `bot=1` or `geo=1` makes `isAI` return `true`. -/
theorem C3_no_user_agent_geo_query (cfg : AIDetectorConfig) (req : AIRequest)
    (hua : req.userAgent = none)
    (hq : queryGet req "format" = some "geo" ∨ queryGet req "ai" = some "true" ∨
      queryGet req "bot" = some "1" ∨ queryGet req "geo" = some "1") :
    isAI cfg req = true := by
  have hcu : checkUserAgent cfg req = some false := by
    simp [checkUserAgent, hua]
  have hcq : checkQueryParams req = true := by
    rcases hq with h | h | h | h <;> simp [checkQueryParams, h]
  unfold isAI
  rw [hcu]
  by_cases hs : cfg.strictMode <;> simp [hs, hcq]

/-- C3, witnessed: under the default strict configuration, a request with no
`User-Agent` and query `?format=geo` is classified as AI. -/
theorem C3_witness : isAI DEFAULT_AI_CONFIG demoGeoRequest = true :=
  C3_no_user_agent_geo_query DEFAULT_AI_CONFIG demoGeoRequest rfl (Or.inl (by decide))

/-- C5 counterexample: the strict conversion checks the raw result's `length`
field, not `textContent.length`; a raw result whose `textContent` is the
one-character string `"x"` but whose `length` field reports 100 is accepted,
although the claim requires `null` whenever the text content is shorter
than 50. -/
theorem C5_counterexample :
    (convertToStrictType shortTextResult).isSome = true ∧
    shortTextResult.textContent = some "x" ∧ "x".length < 50 := by
  refine ⟨by decide, by decide, by decide⟩

/-- C5 amended: `convertToStrictType` returns `null` exactly when `title`,
`content` or `textContent` is missing or empty, or the result's `length`
field is null or below 50; any article it does return has the three required
fields non-empty and carried over from the raw result. -/
theorem C5_strict_conversion (r : ReadabilityResult) :
    (convertToStrictType r = none ↔
      (strFalsy r.title = true ∨ strFalsy r.content = true ∨ strFalsy r.textContent = true ∨
        r.length = none ∨ ∃ n, r.length = some n ∧ n < 50)) ∧
    (∀ a, convertToStrictType r = some a →
      a.title ≠ "" ∧ a.content ≠ "" ∧ a.textContent ≠ "" ∧ 50 ≤ a.length ∧
      r.title = some a.title ∧ r.content = some a.content ∧
      r.textContent = some a.textContent) := by
  obtain ⟨t, c, tc, len, ex, byl, di, sn, lg, pt⟩ := r
  rcases t with _ | t <;> rcases c with _ | c <;> rcases tc with _ | tc <;>
    rcases len with _ | len <;> simp only [convertToStrictType, strFalsy] <;> try simp
  constructor
  · by_cases h1 : t = "" <;> by_cases h2 : c = "" <;> by_cases h3 : tc = "" <;>
      by_cases h4 : len < 50 <;> simp_all
  · intro a ha
    by_cases h1 : t = "" <;> by_cases h2 : c = "" <;> by_cases h3 : tc = "" <;>
      by_cases h4 : len < 50 <;> simp_all
    rintro rfl
    exact ⟨h1, h2, h3, h4, rfl, rfl, rfl⟩

/-- C5 amended, witnessed: a raw result with all required fields present and
`length = 120` converts to the expected strict article, whose fields satisfy
the stated properties. -/
theorem C5_strict_conversion_witness :
    goodArticle.title ≠ "" ∧ goodArticle.content ≠ "" ∧ goodArticle.textContent ≠ "" ∧
    (50 : Int) ≤ goodArticle.length ∧
    goodResult.title = some goodArticle.title ∧ goodResult.content = some goodArticle.content ∧
    goodResult.textContent = some goodArticle.textContent :=
  (C5_strict_conversion goodResult).2 goodArticle (by decide)

/-- The number of transport attempts is bounded by the remaining budget. -/
theorem fetchGo_attempts_le (tr : Nat → FetchOutcome) :
    ∀ remaining attempt, (fetchGo tr attempt remaining).attempts ≤ attempt + remaining + 1 := by
  intro remaining
  induction remaining with
  | zero =>
      intro attempt
      unfold fetchGo
      cases h : classifyAttempt (tr attempt) <;> simp
  | succ n ih =>
      intro attempt
      unfold fetchGo
      cases h : classifyAttempt (tr attempt) with
      | ok body => simp
      | error e =>
          by_cases he : e.2 = true <;> simp [he]
          have := ih (attempt + 1)
          omega

/-- A retryable outcome classifies as a plain (non-`HTMLCleanerError`) error. -/
theorem retryable_classify {o : FetchOutcome} (h : retryableOutcome o = true) :
    ∃ e, classifyAttempt o = Except.error (e, false) := by
  unfold retryableOutcome at h
  cases hc : classifyAttempt o with
  | ok body => rw [hc] at h; simp at h
  | error e =>
      obtain ⟨a, b⟩ := e
      rw [hc] at h
      simp at h
      subst h
      exact ⟨a, rfl⟩

/-- C4: the fetch step makes at most 4 attempts; a 404 response or another
4xx response excluding 429/403 on the first attempt fails immediately after a
single attempt with no backoff; retryable failures (5xx, 429, 403,
network/timeout) are retried with waits `1000 · 2^attempt` ms until a success
returns the body; and when all 4 attempts fail retryably the call raises
`FETCH_FAILED` wrapping the last underlying error after delays 1s, 2s, 4s. -/
theorem C4_retry_policy (transport : Nat → FetchOutcome) :
    (fetchHTMLWithRetry transport).attempts ≤ 4 ∧
    (∀ ct body, transport 0 = FetchOutcome.resp 404 ct body →
      fetchHTMLWithRetry transport =
        { result := .error .notFound, attempts := 1, delays := [] }) ∧
    (∀ s ct body, 400 ≤ s → s < 500 → s ≠ 404 → s ≠ 429 → s ≠ 403 →
      transport 0 = FetchOutcome.resp s ct body →
      fetchHTMLWithRetry transport =
        { result := .error (.httpClientError s), attempts := 1, delays := [] }) ∧
    (∀ k, k ≤ 3 → (∀ i, i < k → retryableOutcome (transport i) = true) →
      ∀ ct body, transport k = FetchOutcome.resp 200 ct body → ctIncludesHtml ct = true →
      fetchHTMLWithRetry transport =
        { result := .ok body, attempts := k + 1,
          delays := (List.range k).map (fun i => 1000 * 2 ^ i) }) ∧
    ((∀ i, i ≤ 3 → retryableOutcome (transport i) = true) →
      ∃ e, classifyAttempt (transport 3) = Except.error (e, false) ∧
        fetchHTMLWithRetry transport =
          { result := .error (.fetchFailed e), attempts := 4,
            delays := [1000, 2000, 4000] }) := by
  refine ⟨fetchGo_attempts_le transport 3 0, ?_, ?_, ?_, ?_⟩
  · intro ct body h
    have e1 : classifyAttempt (transport 0) = .error (.notFound, true) := by
      rw [h]
      simp only [classifyAttempt]
      have hok : respOk 404 = false := by decide
      rw [hok]
      simp
    simp only [fetchHTMLWithRetry, fetchGo, e1]
    simp
  · intro s ct body h1 h2 h3 h4 h5 h6
    have hok : respOk s = false := by
      unfold respOk
      simp only [Bool.and_eq_false_iff, decide_eq_false_iff_not, not_le, not_lt]
      omega
    have e1 : classifyAttempt (transport 0) = .error (.httpClientError s, true) := by
      rw [h6]
      simp only [classifyAttempt]
      rw [hok]
      simp only [Bool.false_eq_true, if_false]
      rw [if_neg h3, if_pos ⟨h1, h2, h4, h5⟩]
    simp only [fetchHTMLWithRetry, fetchGo, e1]
    simp
  · intro k hk hretry ct body hresp hct
    have hsucc : classifyAttempt (transport k) = .ok body := by
      rw [hresp]
      simp only [classifyAttempt]
      have hok : respOk 200 = true := by decide
      rw [hok, hct]
      simp
    interval_cases k
    · simp only [fetchHTMLWithRetry, fetchGo, hsucc]
      simp
    · obtain ⟨e0, he0⟩ := retryable_classify (hretry 0 (by omega))
      simp only [fetchHTMLWithRetry, fetchGo, he0, hsucc]
      simp [List.range_succ]
    · obtain ⟨e0, he0⟩ := retryable_classify (hretry 0 (by omega))
      obtain ⟨e1, he1⟩ := retryable_classify (hretry 1 (by omega))
      simp only [fetchHTMLWithRetry, fetchGo, he0, he1, hsucc]
      simp [List.range_succ]
    · obtain ⟨e0, he0⟩ := retryable_classify (hretry 0 (by omega))
      obtain ⟨e1, he1⟩ := retryable_classify (hretry 1 (by omega))
      obtain ⟨e2, he2⟩ := retryable_classify (hretry 2 (by omega))
      simp only [fetchHTMLWithRetry, fetchGo, he0, he1, he2, hsucc]
      simp [List.range_succ]
  · intro hretry
    obtain ⟨e0, he0⟩ := retryable_classify (hretry 0 (by omega))
    obtain ⟨e1, he1⟩ := retryable_classify (hretry 1 (by omega))
    obtain ⟨e2, he2⟩ := retryable_classify (hretry 2 (by omega))
    obtain ⟨e3, he3⟩ := retryable_classify (hretry 3 (by omega))
    refine ⟨e3, he3, ?_⟩
    simp only [fetchHTMLWithRetry, fetchGo, he0, he1, he2, he3]
    simp

/-- C4, witnessed at concrete transports: a constant-404 transport fails
after exactly one attempt; a 418 fails after one attempt; two 500s followed
by a 200 succeed on the third attempt after 1s and 2s waits; a constant-503
transport exhausts all 4 attempts and raises `FETCH_FAILED` wrapping the last
retryable error. -/
theorem C4_retry_policy_witness :
    fetchHTMLWithRetry (fun _ => FetchOutcome.resp 404 (some "text/html") "x") =
      { result := .error .notFound, attempts := 1, delays := [] } ∧
    fetchHTMLWithRetry (fun _ => FetchOutcome.resp 418 (some "text/html") "x") =
      { result := .error (.httpClientError 418), attempts := 1, delays := [] } ∧
    fetchHTMLWithRetry
        (fun i => if i < 2 then FetchOutcome.resp 500 none "e"
          else FetchOutcome.resp 200 (some "text/html") "ok") =
      { result := .ok "ok", attempts := 3,
        delays := (List.range 2).map (fun i => 1000 * 2 ^ i) } ∧
    fetchHTMLWithRetry (fun _ => FetchOutcome.resp 503 none "e") =
      { result := .error (.fetchFailed (.httpRetry 503)), attempts := 4,
        delays := [1000, 2000, 4000] } := by
  refine ⟨(C4_retry_policy _).2.1 (some "text/html") "x" rfl,
    (C4_retry_policy _).2.2.1 418 (some "text/html") "x" (by omega) (by omega)
      (by omega) (by omega) (by omega) rfl,
    (C4_retry_policy _).2.2.2.1 2 (by omega) (by decide) (some "text/html") "ok" rfl (by decide),
    ?_⟩
  obtain ⟨e, he, hr⟩ :=
    (C4_retry_policy (fun _ => FetchOutcome.resp 503 none "e")).2.2.2.2 (fun i _ => by decide)
  have hcl : classifyAttempt ((fun _ => FetchOutcome.resp 503 none "e") 3)
      = Except.error (FetchThrown.httpRetry 503, false) := by rfl
  rw [hcl] at he
  simp at he
  rw [← he] at hr
  exact hr

/-- The last index of a disjunction of tests is the maximum of the last
indices of the tests. -/
theorem lastIdxP_or (p q : Char → Bool) (l : List Char) :
    lastIdxP (fun c => p c || q c) l = omaxNat (lastIdxP p l) (lastIdxP q l) := by
  induction l with
  | nil => rfl
  | cons c rest ih =>
      simp only [lastIdxP, ih]
      cases hp : lastIdxP p rest <;> cases hq : lastIdxP q rest <;>
        by_cases h1 : p c <;> by_cases h2 : q c <;>
        simp [omaxNat, h1, h2] <;> omega

/-- `idxToInt` turns the optional maximum into an integer maximum. -/
theorem idxToInt_omax (a b : Option Nat) :
    idxToInt (omaxNat a b) = max (idxToInt a) (idxToInt b) := by
  cases a <;> cases b <;> simp [omaxNat, idxToInt] <;> omega

/-- The `Math.max` of the four `lastIndexOf` calls computes the last index of
any of the four marks. -/
theorem lastPeriod_eq (l : List Char) :
    max (max (max (jsLastIndexOf l cjkPeriod) (jsLastIndexOf l latinPeriod))
        (jsLastIndexOf l fwExclaim)) (jsLastIndexOf l fwQuestion)
      = idxToInt (lastIdxP (fun ch =>
          ((ch == cjkPeriod || ch == latinPeriod) || ch == fwExclaim) || ch == fwQuestion) l) := by
  simp only [lastIdxP_or, idxToInt_omax, jsLastIndexOf]

set_option maxRecDepth 100000 in
/-- C9 counterexample: on a 211-character text whose only sentence-terminal
mark is a Latin exclamation mark at index 60, the claim's excerpt cuts after
the mark (61 characters), but the code searches only for `。`, `.`, `！`, `？`
— not the Latin `!` or `?` — and appends an ellipsis to the raw
200-character truncation instead. -/
theorem C9_counterexample :
    (metadataExcerpt none demoLongText).length = 203 ∧
    (excerptClaim demoLongText).length = 61 ∧
    metadataExcerpt none demoLongText ≠ excerptClaim demoLongText := by
  refine ⟨by decide, by decide, ?_⟩
  intro h
  have := congrArg String.length h
  rw [show (metadataExcerpt none demoLongText).length = 203 from by decide,
    show (excerptClaim demoLongText).length = 61 from by decide] at this
  exact absurd this (by decide)

/-- C9 amended: when the upstream excerpt is absent, `metadata.excerpt` is
exactly the claim's excerpt with the mark set restricted to the four marks
the code searches for (CJK or Latin period, fullwidth exclamation and
question): trimmed text itself when at most 200 characters, else the
200-character truncation cut inclusively at the last such mark when it lies
past position 50, else the truncation with an ellipsis appended. -/
theorem C9_excerpt (textContent : String) :
    metadataExcerpt none textContent = excerptAmended textContent := by
  show generateExcerpt textContent = excerptAmended textContent
  unfold generateExcerpt excerptAmended
  by_cases hlen : (jsTrim textContent).length ≤ 200
  · simp [hlen]
  · simp only [hlen, if_false]
    rw [lastPeriod_eq]
    cases h : lastIdxP (fun ch =>
        ((ch == cjkPeriod || ch == latinPeriod) || ch == fwExclaim) || ch == fwQuestion)
        ((jsTrim textContent).toList.take 200) with
    | none => simp [idxToInt]
    | some i =>
        by_cases hi : 50 < i
        · have hi2 : (50 : Int) < (i : Int) := by exact_mod_cast hi
          simp [idxToInt, hi, hi2]
        · have hi2 : ¬ (50 : Int) < (i : Int) := by exact_mod_cast hi
          simp [idxToInt, hi, hi2]

/-- A key occurs in the entry list iff the `Map.set` existence test succeeds. -/
theorem any_key_iff {T} (l : List (String × CacheItem T)) (k : String) :
    l.any (fun e => e.1 == k) = true ↔ k ∈ l.map (fun e => e.1) := by
  simp [List.any_eq_true, List.mem_map]

/-- After `Map.set`, looking the key up returns the stored value. -/
theorem mapGet_mapSet_self {T} (l : List (String × CacheItem T)) (k : String) (v : CacheItem T) :
    mapGet (mapSet l k v) k = some v := by
  induction l with
  | nil => simp [mapGet, mapSet, List.find?]
  | cons e rest ih =>
      by_cases hek : e.1 = k
      · simp [mapSet, mapGet, List.find?, hek]
      · have hbeq : (e.1 == k) = false := by simp [hek]
        by_cases hany : rest.any (fun x => x.1 == k) = true
        · have hcons : ((e :: rest).any fun x => x.1 == k) = true := by
            simp [List.any_cons, hbeq, hany]
          have h1 : mapSet (e :: rest) k v = e :: mapSet rest k v := by
            unfold mapSet
            rw [hcons, hany]
            simp [hbeq, hek]
          rw [h1]
          simpa [mapGet, List.find?, hbeq] using ih
        · have hany2 : rest.any (fun x => x.1 == k) = false := eq_false_of_ne_true hany
          have hcons : ((e :: rest).any fun x => x.1 == k) = false := by
            simp [List.any_cons, hbeq, hany2]
          have h1 : mapSet (e :: rest) k v = e :: (rest ++ [(k, v)]) := by
            unfold mapSet
            rw [hcons]
            simp
          rw [h1]
          have h2 : mapSet rest k v = rest ++ [(k, v)] := by
            unfold mapSet
            rw [hany2]
            simp
          rw [h2] at ih
          simpa [mapGet, List.find?, hbeq] using ih

/-- Characterization of an enabled `get` on an absent key. -/
theorem cacheGet_eq_absent {T} (cfg : CacheConfig) (s : CacheState T) (now : Nat) (key : String)
    (hen : cfg.enabled = true) (hm : mapGet s.entries key = none) :
    cacheGet cfg s now key = (none, { s with misses := s.misses + 1 }) := by
  unfold cacheGet
  rw [hen, hm]
  simp

/-- Characterization of an enabled `get` on an expired entry. -/
theorem cacheGet_eq_expired {T} (cfg : CacheConfig) (s : CacheState T) (now : Nat) (key : String)
    (item : CacheItem T) (hen : cfg.enabled = true) (hm : mapGet s.entries key = some item)
    (hexp : item.expiresAt < now) :
    cacheGet cfg s now key
      = (none, { s with entries := mapDelete s.entries key, misses := s.misses + 1 }) := by
  unfold cacheGet
  rw [hen, hm]
  simp [hexp]

/-- Characterization of an enabled `get` on a live entry. -/
theorem cacheGet_eq_hit {T} (cfg : CacheConfig) (s : CacheState T) (now : Nat) (key : String)
    (item : CacheItem T) (hen : cfg.enabled = true) (hm : mapGet s.entries key = some item)
    (hexp : ¬ item.expiresAt < now) :
    cacheGet cfg s now key = (some item.data, { s with hits := s.hits + 1 }) := by
  unfold cacheGet
  rw [hen, hm]
  simp [hexp]

/-- The entries after an enabled `set`: evict when at capacity, then store. -/
theorem cacheSet_entries {T} (cfg : CacheConfig) (s : CacheState T) (now : Nat) (key : String)
    (v : T) (ttlArg : Option Nat) (hen : cfg.enabled = true) :
    (cacheSet cfg s now key v ttlArg).entries
      = mapSet (if cfg.maxSize ≤ s.entries.length then evictOldest s else s).entries key
          { data := v, timestamp := now, expiresAt := now + actualTTL cfg ttlArg * 1000 } := by
  unfold cacheSet
  rw [hen]
  by_cases hsz : cfg.maxSize ≤ s.entries.length <;> simp [hsz]

/-- Characterization of `getOrSet` when the cached lookup misses. -/
theorem getOrSet_eq_miss {T} (cfg : CacheConfig) (truthy : T → Bool) (s : CacheState T)
    (now : Nat) (key : String) (fv : T) (ttlArg : Option Nat)
    (hr : (cacheGet cfg s now key).1 = none) :
    getOrSet cfg truthy s now key fv ttlArg
      = { value := fv, state := cacheSet cfg (cacheGet cfg s now key).2 now key fv ttlArg,
          factoryCalls := 1 } := by
  simp only [getOrSet]
  rw [hr]

/-- Characterization of `getOrSet` when the cached lookup returns a truthy value. -/
theorem getOrSet_eq_hit {T} (cfg : CacheConfig) (truthy : T → Bool) (s : CacheState T)
    (now : Nat) (key : String) (fv : T) (ttlArg : Option Nat) (v : T)
    (hr : (cacheGet cfg s now key).1 = some v) (ht : truthy v = true) :
    getOrSet cfg truthy s now key fv ttlArg
      = { value := v, state := (cacheGet cfg s now key).2, factoryCalls := 0 } := by
  simp only [getOrSet]
  rw [hr]
  simp [ht]

/-- Characterization of `getOrSet` when the cached lookup returns a falsy value. -/
theorem getOrSet_eq_falsy {T} (cfg : CacheConfig) (truthy : T → Bool) (s : CacheState T)
    (now : Nat) (key : String) (fv : T) (ttlArg : Option Nat) (v : T)
    (hr : (cacheGet cfg s now key).1 = some v) (ht : truthy v = false) :
    getOrSet cfg truthy s now key fv ttlArg
      = { value := fv, state := cacheSet cfg (cacheGet cfg s now key).2 now key fv ttlArg,
          factoryCalls := 1 } := by
  simp only [getOrSet]
  rw [hr]
  simp [ht]

/-- `getOrSet` runs the factory at most once per call. -/
theorem getOrSet_calls_le_one {T} (cfg : CacheConfig) (truthy : T → Bool) (s : CacheState T)
    (now : Nat) (key : String) (fv : T) (ttlArg : Option Nat) :
    (getOrSet cfg truthy s now key fv ttlArg).factoryCalls ≤ 1 := by
  cases hr : (cacheGet cfg s now key).1 with
  | none => rw [getOrSet_eq_miss cfg truthy s now key fv ttlArg hr]
  | some v =>
      cases ht : truthy v with
      | true => rw [getOrSet_eq_hit cfg truthy s now key fv ttlArg v hr ht]; simp
      | false => rw [getOrSet_eq_falsy cfg truthy s now key fv ttlArg v hr ht]

/-- When an enabled `get` returns a value, the entry was present and live,
the value is its data, and the entry map is unchanged. -/
theorem cacheGet_fst_some {T} (cfg : CacheConfig) (s : CacheState T) (now : Nat) (key : String)
    (v : T) (hen : cfg.enabled = true) (h : (cacheGet cfg s now key).1 = some v) :
    ∃ item, mapGet s.entries key = some item ∧ item.data = v ∧
      (cacheGet cfg s now key).2.entries = s.entries := by
  cases hm : mapGet s.entries key with
  | none => rw [cacheGet_eq_absent cfg s now key hen hm] at h; simp at h
  | some item =>
      by_cases hexp : item.expiresAt < now
      · rw [cacheGet_eq_expired cfg s now key item hen hm hexp] at h
        simp at h
      · rw [cacheGet_eq_hit cfg s now key item hen hm hexp] at h
        simp at h
        exact ⟨item, rfl, h, by rw [cacheGet_eq_hit cfg s now key item hen hm hexp]⟩

/-- After an enabled `getOrSet`, the entry found under the key holds the
value the call returned. -/
theorem getOrSet_stored_value {T} (cfg : CacheConfig) (truthy : T → Bool) (s : CacheState T)
    (now : Nat) (key : String) (fv : T) (ttlArg : Option Nat) (hen : cfg.enabled = true)
    (it : CacheItem T)
    (hlook : mapGet (getOrSet cfg truthy s now key fv ttlArg).state.entries key = some it) :
    it.data = (getOrSet cfg truthy s now key fv ttlArg).value := by
  cases hr : (cacheGet cfg s now key).1 with
  | none =>
      rw [getOrSet_eq_miss cfg truthy s now key fv ttlArg hr] at hlook ⊢
      rw [cacheSet_entries cfg _ now key fv ttlArg hen, mapGet_mapSet_self] at hlook
      injection hlook with h
      rw [← h]
  | some v =>
      cases ht : truthy v with
      | true =>
          rw [getOrSet_eq_hit cfg truthy s now key fv ttlArg v hr ht] at hlook ⊢
          obtain ⟨item, hm, hdata, hentries⟩ := cacheGet_fst_some cfg s now key v hen hr
          rw [hentries, hm] at hlook
          injection hlook with h
          rw [← h]
          exact hdata
      | false =>
          rw [getOrSet_eq_falsy cfg truthy s now key fv ttlArg v hr ht] at hlook ⊢
          rw [cacheSet_entries cfg _ now key fv ttlArg hen, mapGet_mapSet_self] at hlook
          injection hlook with h
          rw [← h]

/-- C7 amended: two sequential `getOrSet` calls for the same key on an
enabled cache — the first succeeding, the stored value truthy, and the entry
unexpired at the second call — run the factory at most once for the first
call and not at all for the second; the second call returns the value the
first stored and bumps the hit counter by one. -/
theorem C7_get_or_set (T : Type) (truthy : T → Bool) (cfg : CacheConfig) (s0 : CacheState T)
    (t1 t2 : Nat) (key : String) (fv fv2 : T) (ta1 ta2 : Option Nat)
    (hen : cfg.enabled = true) (it : CacheItem T)
    (hlook : mapGet (getOrSet cfg truthy s0 t1 key fv ta1).state.entries key = some it)
    (htruthy : truthy it.data = true)
    (hexp : ¬ it.expiresAt < t2) :
    (getOrSet cfg truthy s0 t1 key fv ta1).factoryCalls ≤ 1 ∧
    (getOrSet cfg truthy (getOrSet cfg truthy s0 t1 key fv ta1).state t2 key fv2 ta2).factoryCalls
      = 0 ∧
    (getOrSet cfg truthy (getOrSet cfg truthy s0 t1 key fv ta1).state t2 key fv2 ta2).value
      = (getOrSet cfg truthy s0 t1 key fv ta1).value ∧
    (getOrSet cfg truthy (getOrSet cfg truthy s0 t1 key fv ta1).state t2 key fv2 ta2).state.hits
      = (getOrSet cfg truthy s0 t1 key fv ta1).state.hits + 1 := by
  have hdata := getOrSet_stored_value cfg truthy s0 t1 key fv ta1 hen it hlook
  have hget2 := cacheGet_eq_hit cfg (getOrSet cfg truthy s0 t1 key fv ta1).state t2 key it hen
    hlook hexp
  have h2 := getOrSet_eq_hit cfg truthy (getOrSet cfg truthy s0 t1 key fv ta1).state t2 key fv2
    ta2 it.data (by rw [hget2]) htruthy
  rw [h2, hget2]
  exact ⟨getOrSet_calls_le_one cfg truthy s0 t1 key fv ta1, rfl, hdata, rfl⟩

/-- C7 amended, witnessed: on a fresh default cache, a first `getOrSet` at
time 0 storing the truthy string `"v"` and a second at time 1 for the same
key run the factory once then zero times, return the same value, and count
one hit. -/
theorem C7_get_or_set_witness :
    (getOrSet DEFAULT_CACHE_CONFIG jsTruthyStr emptyCache 0 "k" "v" none).factoryCalls ≤ 1 ∧
    (getOrSet DEFAULT_CACHE_CONFIG jsTruthyStr
      (getOrSet DEFAULT_CACHE_CONFIG jsTruthyStr emptyCache 0 "k" "v" none).state
      1 "k" "w" none).factoryCalls = 0 ∧
    (getOrSet DEFAULT_CACHE_CONFIG jsTruthyStr
      (getOrSet DEFAULT_CACHE_CONFIG jsTruthyStr emptyCache 0 "k" "v" none).state
      1 "k" "w" none).value
      = (getOrSet DEFAULT_CACHE_CONFIG jsTruthyStr emptyCache 0 "k" "v" none).value ∧
    (getOrSet DEFAULT_CACHE_CONFIG jsTruthyStr
      (getOrSet DEFAULT_CACHE_CONFIG jsTruthyStr emptyCache 0 "k" "v" none).state
      1 "k" "w" none).state.hits
      = (getOrSet DEFAULT_CACHE_CONFIG jsTruthyStr emptyCache 0 "k" "v" none).state.hits + 1 :=
  C7_get_or_set String jsTruthyStr DEFAULT_CACHE_CONFIG emptyCache 0 1 "k" "v" "w" none none
    rfl { data := "v", timestamp := 0, expiresAt := 3600000 } (by decide) (by decide) (by decide)

/-- Deleting a present key strictly shrinks the entry list. -/
theorem length_mapDelete_lt {T} (l : List (String × CacheItem T)) (k : String)
    (h : k ∈ l.map (fun e => e.1)) : (mapDelete l k).length < l.length := by
  unfold mapDelete
  have hle := List.length_filter_le (fun e => e.1 != k) l
  rcases Nat.lt_or_ge ((l.filter (fun e => e.1 != k)).length) l.length with hlt | hge
  · exact hlt
  · exfalso
    have heq : ((l.filter (fun e => e.1 != k)).length) = l.length := le_antisymm hle hge
    rw [List.filter_length_eq_length] at heq
    obtain ⟨e, he, hk⟩ := List.mem_map.mp h
    have := heq e he
    simp [hk] at this

/-- `Map.set` grows the entry list by at most one. -/
theorem length_mapSet_le {T} (l : List (String × CacheItem T)) (k : String) (v : CacheItem T) :
    (mapSet l k v).length ≤ l.length + 1 := by
  unfold mapSet
  split
  · simp
  · simp

/-- Entries after a delete come from the original list. -/
theorem mem_mapDelete {T} {l : List (String × CacheItem T)} {k : String} {e}
    (h : e ∈ mapDelete l k) : e ∈ l :=
  (List.mem_filter.mp h).1

/-- Entries after a set are original entries or the new one. -/
theorem mem_mapSet {T} {l : List (String × CacheItem T)} {k : String} {v : CacheItem T} {e}
    (h : e ∈ mapSet l k v) : e ∈ l ∨ e = (k, v) := by
  unfold mapSet at h
  by_cases hany : l.any (fun x => x.1 == k) = true
  · rw [if_pos hany] at h
    obtain ⟨x, hx, hxe⟩ := List.mem_map.mp h
    by_cases hxk : (x.1 == k) = true
    · right; rw [← hxe]; simp [hxk]
    · left
      rw [← hxe]
      simp only [hxk, Bool.false_eq_true, if_false]
      exact hx
  · rw [if_neg hany] at h
    rcases List.mem_append.mp h with h | h
    · left; exact h
    · right; simpa using h

/-- The scan of `evictOldest` starting from a running pair returns that pair
or a key/timestamp pair taken from the list. -/
theorem scanOldest_mem {T} :
    ∀ (l : List (String × CacheItem T)) (kt : String × Nat),
      ∃ r, scanOldest l (some kt) = some r ∧
        (r = kt ∨ ∃ e ∈ l, r = (e.1, e.2.timestamp)) := by
  intro l
  induction l with
  | nil => intro kt; exact ⟨kt, rfl, Or.inl rfl⟩
  | cons e rest ih =>
      intro kt
      by_cases hlt : e.2.timestamp < kt.2
      · obtain ⟨r, hr, hor⟩ := ih (e.1, e.2.timestamp)
        refine ⟨r, ?_, ?_⟩
        · simp only [scanOldest, hlt, if_true]
          exact hr
        · rcases hor with h | ⟨x, hx, hxx⟩
          · exact Or.inr ⟨e, by simp, h⟩
          · exact Or.inr ⟨x, by simp [hx], hxx⟩
      · obtain ⟨r, hr, hor⟩ := ih kt
        refine ⟨r, ?_, ?_⟩
        · simp only [scanOldest, hlt, if_false]
          exact hr
        · rcases hor with h | ⟨x, hx, hxx⟩
          · exact Or.inl h
          · exact Or.inr ⟨x, by simp [hx], hxx⟩

/-- On a non-empty cache whose keys are all non-empty strings, `evictOldest`
removes exactly one entry. -/
theorem evictOldest_entries_lt {T} (s : CacheState T) (hne : s.entries ≠ [])
    (hkeys : ∀ e ∈ s.entries, e.1 ≠ "") :
    (evictOldest s).entries.length < s.entries.length := by
  obtain ⟨e, rest, hE⟩ : ∃ e rest, s.entries = e :: rest := by
    cases h : s.entries with
    | nil => exact absurd h hne
    | cons a b => exact ⟨a, b, rfl⟩
  obtain ⟨r, hr, hor⟩ := scanOldest_mem rest (e.1, e.2.timestamp)
  have hscan : scanOldest s.entries none = some r := by
    rw [hE]
    simp only [scanOldest]
    exact hr
  have hmem : r.1 ∈ s.entries.map (fun x => x.1) := by
    rcases hor with h | ⟨x, hx, hxx⟩
    · rw [h, hE]; simp
    · rw [hxx, hE]; simp; exact Or.inr ⟨x.2, hx⟩
  have hrk : r.1 ≠ "" := by
    obtain ⟨x, hx, hxx⟩ := List.mem_map.mp hmem
    rw [← hxx]
    exact hkeys x hx
  have hev : evictOldest s = { s with entries := mapDelete s.entries r.1 } := by
    unfold evictOldest
    rw [hscan]
    simp [hrk]
  rw [hev]
  exact length_mapDelete_lt s.entries r.1 hmem

/-- Entries surviving `evictOldest` come from the original list. -/
theorem mem_evictOldest {T} {s : CacheState T} {e} (h : e ∈ (evictOldest s).entries) :
    e ∈ s.entries := by
  cases hsc : scanOldest s.entries none with
  | none =>
      have hev : evictOldest s = s := by
        unfold evictOldest
        rw [hsc]
      rw [hev] at h
      exact h
  | some kt =>
      by_cases hk : kt.1 = ""
      · have hev : evictOldest s = s := by
          unfold evictOldest
          rw [hsc]
          simp [hk]
        rw [hev] at h
        exact h
      · have hev : evictOldest s = { s with entries := mapDelete s.entries kt.1 } := by
          unfold evictOldest
          rw [hsc]
          simp [hk]
        rw [hev] at h
        exact mem_mapDelete h

/-- An enabled or disabled `get` leaves the entries unchanged or lazily
deletes the looked-up key. -/
theorem cacheGet_entries_cases {T} (cfg : CacheConfig) (s : CacheState T) (now : Nat)
    (k : String) :
    (cacheGet cfg s now k).2.entries = s.entries ∨
      (cacheGet cfg s now k).2.entries = mapDelete s.entries k := by
  cases henb : cfg.enabled with
  | false =>
      left
      unfold cacheGet
      rw [henb]
      simp
  | true =>
      cases hm : mapGet s.entries k with
      | none => left; rw [cacheGet_eq_absent cfg s now k henb hm]
      | some item =>
          by_cases hexp : item.expiresAt < now
          · right; rw [cacheGet_eq_expired cfg s now k item henb hm hexp]
          · left; rw [cacheGet_eq_hit cfg s now k item henb hm hexp]

/-- One public operation preserves the size bound and the all-keys-non-empty
invariant, provided a `set` never uses the empty-string key. -/
theorem applyOp_invariant {T} (cfg : CacheConfig) (hmax : 1 ≤ cfg.maxSize)
    (s : CacheState T) (op : CacheOp T)
    (hop : ∀ now k v t, op = CacheOp.set now k v t → k ≠ "")
    (hlen : s.entries.length ≤ cfg.maxSize)
    (hkeys : ∀ e ∈ s.entries, e.1 ≠ "") :
    (applyOp cfg s op).entries.length ≤ cfg.maxSize ∧
      ∀ e ∈ (applyOp cfg s op).entries, e.1 ≠ "" := by
  cases op with
  | clear => simp [applyOp, cacheClear]
  | del k =>
      refine ⟨le_trans (List.length_filter_le _ _) hlen, ?_⟩
      intro e he
      exact hkeys e (mem_mapDelete he)
  | get now k =>
      have hc : applyOp cfg s (CacheOp.get now k) = (cacheGet cfg s now k).2 := rfl
      rw [hc]
      rcases cacheGet_entries_cases cfg s now k with h | h <;> rw [h]
      · exact ⟨hlen, hkeys⟩
      · refine ⟨le_trans (List.length_filter_le _ _) hlen, ?_⟩
        intro e he
        exact hkeys e (mem_mapDelete he)
  | set now k v t =>
      have hk : k ≠ "" := hop now k v t rfl
      have hc : applyOp cfg s (CacheOp.set now k v t) = cacheSet cfg s now k v t := rfl
      rw [hc]
      cases henb : cfg.enabled with
      | false =>
          have : cacheSet cfg s now k v t = s := by
            unfold cacheSet
            rw [henb]
            simp
          rw [this]
          exact ⟨hlen, hkeys⟩
      | true =>
          have hent := cacheSet_entries cfg s now k v t henb
          by_cases hsz : cfg.maxSize ≤ s.entries.length
          · rw [if_pos hsz] at hent
            have hne : s.entries ≠ [] := by
              intro h0
              rw [h0] at hsz
              simp at hsz
              omega
            have hlt := evictOldest_entries_lt s hne hkeys
            constructor
            · rw [hent]
              have h1 := length_mapSet_le (evictOldest s).entries k
                ({ data := v, timestamp := now,
                   expiresAt := now + actualTTL cfg t * 1000 } : CacheItem T)
              omega
            · intro e he
              rw [hent] at he
              rcases mem_mapSet he with h | h
              · exact hkeys e (mem_evictOldest h)
              · rw [h]
                exact hk
          · rw [if_neg hsz] at hent
            constructor
            · rw [hent]
              have h1 := length_mapSet_le s.entries k
                ({ data := v, timestamp := now,
                   expiresAt := now + actualTTL cfg t * 1000 } : CacheItem T)
              omega
            · intro e he
              rw [hent] at he
              rcases mem_mapSet he with h | h
              · exact hkeys e h
              · rw [h]
                exact hk

/-- C10 amended: on a cache with `maxSize ≥ 1`, the invariant
`size ≤ maxSize` holds after every sequence of `get`/`set`/`delete`/`clear`
operations, provided every key passed to `set` is a non-empty string (an
empty-string key at the oldest timestamp makes `evictOldest` a no-op and the
invariant fails, as the counterexample shows). -/
theorem C10_size_invariant (T : Type) (cfg : CacheConfig) (ops : List (CacheOp T))
    (hmax : 1 ≤ cfg.maxSize)
    (hkeys : ∀ op ∈ ops, ∀ now k v t, op = CacheOp.set now k v t → k ≠ "") :
    (runOps cfg emptyCache ops).entries.length ≤ cfg.maxSize := by
  suffices h : ∀ (ops2 : List (CacheOp T)) (s : CacheState T),
      (∀ op ∈ ops2, ∀ now k v t, op = CacheOp.set now k v t → k ≠ "") →
      s.entries.length ≤ cfg.maxSize → (∀ e ∈ s.entries, e.1 ≠ "") →
      (runOps cfg s ops2).entries.length ≤ cfg.maxSize by
    refine h ops emptyCache hkeys ?_ ?_
    · simp [emptyCache]
    · simp [emptyCache]
  intro ops2
  induction ops2 with
  | nil => intro s _ hlen _; exact hlen
  | cons op rest ih =>
      intro s hops hlen hk
      have hrun : runOps cfg s (op :: rest) = runOps cfg (applyOp cfg s op) rest := rfl
      rw [hrun]
      have step := applyOp_invariant cfg hmax s op (hops op (by simp)) hlen hk
      exact ih (applyOp cfg s op) (fun o ho => hops o (by simp [ho])) step.1 step.2

/-- C10 amended, witnessed: two inserts with non-empty keys on a capacity-one
cache stay within the size bound. -/
theorem C10_size_invariant_witness :
    (runOps tinyCacheCfg emptyCache
      [CacheOp.set 0 "x" "a" none, CacheOp.set 1 "y" "b" none]).entries.length
      ≤ tinyCacheCfg.maxSize := by
  refine C10_size_invariant String tinyCacheCfg _ (by decide) ?_
  intro op hop now k v t heq
  rcases List.mem_cons.mp hop with rfl | hop2
  · injection heq with h1 h2 h3 h4
    rw [← h2]
    decide
  · rcases List.mem_cons.mp hop2 with rfl | hop3
    · injection heq with h1 h2 h3 h4
      rw [← h2]
      decide
    · simp at hop3

/-- `setAll` distributes over list append. -/
theorem setAll_append {T} (cfg : CacheConfig) :
    ∀ (l1 l2 : List (String × T × Nat)) (s : CacheState T),
      setAll cfg s (l1 ++ l2) = setAll cfg (setAll cfg s l1) l2 := by
  intro l1
  induction l1 with
  | nil => intro l2 s; rfl
  | cons e rest ih => intro l2 s; exact ih l2 _

/-- Inserting fresh, distinct keys below capacity appends the corresponding
entries in order, with no eviction. -/
theorem setAll_no_evict {T} (cfg : CacheConfig) (hen : cfg.enabled = true) :
    ∀ (l : List (String × T × Nat)) (s : CacheState T),
      s.entries.length + l.length ≤ cfg.maxSize →
      (∀ e ∈ l, e.1 ∉ s.entries.map (fun x => x.1)) →
      (l.map (fun e => e.1)).Nodup →
      (setAll cfg s l).entries = s.entries ++ l.map (fun e => (e.1, mkCacheItem cfg e)) := by
  intro l
  induction l with
  | nil => intro s _ _ _; simp [setAll]
  | cons e rest ih =>
      intro s hlen hfresh hnd
      have hsz : ¬ cfg.maxSize ≤ s.entries.length := by
        simp only [List.length_cons] at hlen
        omega
      have hany : s.entries.any (fun x => x.1 == e.1) = false := by
        cases h : s.entries.any (fun x => x.1 == e.1) with
        | false => rfl
        | true => exact absurd ((any_key_iff s.entries e.1).mp h) (hfresh e (by simp))
      have hset : (cacheSet cfg s e.2.2 e.1 e.2.1 none).entries
          = s.entries ++ [(e.1, mkCacheItem cfg e)] := by
        rw [cacheSet_entries cfg s e.2.2 e.1 e.2.1 none hen, if_neg hsz]
        unfold mapSet
        rw [hany]
        simp [mkCacheItem, actualTTL]
      have hstep : setAll cfg s (e :: rest) = setAll cfg (cacheSet cfg s e.2.2 e.1 e.2.1 none) rest :=
        rfl
      have hnd2 : e.1 ∉ rest.map (fun x => x.1) ∧ (rest.map (fun x => x.1)).Nodup := by
        rw [List.map_cons, List.nodup_cons] at hnd
        exact hnd
      rw [hstep, ih (cacheSet cfg s e.2.2 e.1 e.2.1 none) ?_ ?_ hnd2.2]
      · rw [hset]
        simp
      · rw [hset]
        simp only [List.length_append, List.length_cons, List.length_nil] at hlen ⊢
        omega
      · intro x hx
        rw [hset]
        simp only [List.map_append, List.mem_append]
        rintro (hmem | hmem)
        · exact hfresh x (by simp [hx]) hmem
        · simp at hmem
          exact hnd2.1 (hmem ▸ List.mem_map.mpr ⟨x, hx, rfl⟩)

/-- Scanning from a pair at least as old as every listed entry keeps it. -/
theorem scanOldest_min {T} :
    ∀ (l : List (String × CacheItem T)) (kt : String × Nat),
      (∀ e ∈ l, kt.2 ≤ e.2.timestamp) →
      scanOldest l (some kt) = some kt := by
  intro l
  induction l with
  | nil => intro kt _; rfl
  | cons e rest ih =>
      intro kt hle
      have h1 : ¬ e.2.timestamp < kt.2 := not_lt.mpr (hle e (by simp))
      simp only [scanOldest, h1, if_false]
      exact ih kt (fun x hx => hle x (by simp [hx]))

/-- Deleting the head key removes only the head when no later entry shares it. -/
theorem mapDelete_cons_head {T} (e : String × CacheItem T) (rest : List (String × CacheItem T))
    (hrest : ∀ x ∈ rest, x.1 ≠ e.1) :
    mapDelete (e :: rest) e.1 = rest := by
  unfold mapDelete
  rw [List.filter_cons]
  have h1 : (e.1 != e.1) = false := by simp
  rw [h1]
  simp only [Bool.false_eq_true, if_false]
  rw [List.filter_eq_self]
  intro x hx
  simp [hrest x hx]

/-- An absent key looks up to nothing. -/
theorem mapGet_eq_none_of_not_mem {T} (l : List (String × CacheItem T)) (k : String)
    (h : k ∉ l.map (fun e => e.1)) : mapGet l k = none := by
  unfold mapGet
  have hfind : l.find? (fun e => e.1 == k) = none := by
    rw [List.find?_eq_none]
    intro x hx
    simp only [beq_eq_false_iff_ne, ne_eq, beq_iff_eq]
    intro hh
    exact h (hh ▸ List.mem_map.mpr ⟨x, hx, rfl⟩)
  rw [hfind]
  rfl

/-- On a list with distinct keys, a present pair is what lookup returns. -/
theorem mapGet_of_mem_nodup {T} :
    ∀ (l : List (String × CacheItem T)) (k : String) (item : CacheItem T),
      (k, item) ∈ l → (l.map (fun e => e.1)).Nodup → mapGet l k = some item := by
  intro l
  induction l with
  | nil => intro k item h _; simp at h
  | cons e rest ih =>
      intro k item hmem hnd
      rcases List.mem_cons.mp hmem with heq | hmem2
      · rw [← heq]
        simp [mapGet, List.find?]
      · have hk : k ∈ rest.map (fun x => x.1) := List.mem_map.mpr ⟨(k, item), hmem2, rfl⟩
        have hnd2 : e.1 ∉ rest.map (fun x => x.1) ∧ (rest.map (fun x => x.1)).Nodup := by
          rw [List.map_cons, List.nodup_cons] at hnd
          exact hnd
        have hne : (e.1 == k) = false := by
          simp only [beq_eq_false_iff_ne, ne_eq]
          intro hh
          exact hnd2.1 (hh ▸ hk)
        have hskip : mapGet (e :: rest) k = mapGet rest k := by
          simp [mapGet, List.find?, hne]
        rw [hskip]
        exact ih k item hmem2 hnd2.2

/-- C8 amended: on an enabled cache of capacity `mid.length + 1`, inserting
the `maxSize + 1` distinct keys `first :: mid ++ [last]` (timestamps
non-decreasing, no expiry before the final read, and the earliest key a
non-empty string) leaves the earliest-inserted key unretrievable while every
other inserted key still returns its value — eviction removed exactly the
entry with the oldest insertion timestamp. -/
theorem C8_eviction (T : Type) (cfg : CacheConfig) (first : String × T × Nat)
    (mid : List (String × T × Nat)) (last : String × T × Nat) (tg : Nat)
    (hen : cfg.enabled = true)
    (hsize : cfg.maxSize = mid.length + 1)
    (hkey0 : first.1 ≠ "")
    (hnd : ((first :: (mid ++ [last])).map (fun e => e.1)).Nodup)
    (hmono : (first :: (mid ++ [last])).Pairwise (fun a b => a.2.2 ≤ b.2.2))
    (hexp : tg ≤ first.2.2 + cfg.ttl * 1000) :
    (cacheGet cfg (setAll cfg emptyCache (first :: (mid ++ [last]))) tg first.1).1 = none ∧
    ∀ e ∈ mid ++ [last],
      (cacheGet cfg (setAll cfg emptyCache (first :: (mid ++ [last]))) tg e.1).1
        = some e.2.1 := by
  have hndparts : first.1 ∉ (mid ++ [last]).map (fun e => e.1) ∧
      ((mid ++ [last]).map (fun e => e.1)).Nodup := by
    rw [List.map_cons, List.nodup_cons] at hnd
    exact hnd
  have hndlastmid : last.1 ∉ mid.map (fun e => e.1) := by
    have h := hndparts.2
    rw [List.map_append, List.nodup_append] at h
    intro hc
    exact h.2.2 hc (by simp)
  have hmono1 : ∀ b ∈ mid ++ [last], first.2.2 ≤ b.2.2 := by
    have h := (List.pairwise_cons.mp hmono).1
    exact h
  have hsplit : setAll cfg emptyCache (first :: (mid ++ [last]))
      = setAll cfg (setAll cfg emptyCache (first :: mid)) [last] := by
    rw [show first :: (mid ++ [last]) = (first :: mid) ++ [last] from by simp, setAll_append]
  have hndfm : ((first :: mid).map (fun e => e.1)).Nodup := by
    have hsub : List.Sublist ((first :: mid).map (fun e => e.1))
        ((first :: (mid ++ [last])).map (fun e => e.1)) :=
      List.Sublist.map (fun e => e.1) ((List.sublist_append_left mid [last]).cons₂ first)
    exact hnd.sublist hsub
  have hfill := setAll_no_evict cfg hen (first :: mid) emptyCache
    (by simp [emptyCache, hsize]) (by simp [emptyCache]) hndfm
  have hfillE : (setAll cfg emptyCache (first :: mid)).entries
      = (first.1, mkCacheItem cfg first) :: mid.map (fun e => (e.1, mkCacheItem cfg e)) := by
    rw [hfill]
    simp [emptyCache]
  have hlenF : cfg.maxSize ≤ (setAll cfg emptyCache (first :: mid)).entries.length := by
    rw [hfillE]
    simp [hsize]
  have hts : ∀ x ∈ mid.map (fun e => (e.1, mkCacheItem cfg e)),
      (first.1, first.2.2).2 ≤ x.2.timestamp := by
    intro x hx
    obtain ⟨y, hy, rfl⟩ := List.mem_map.mp hx
    exact hmono1 y (List.mem_append.mpr (Or.inl hy))
  have hscan : scanOldest (setAll cfg emptyCache (first :: mid)).entries none
      = some (first.1, first.2.2) := by
    rw [hfillE]
    simp only [scanOldest]
    exact scanOldest_min _ (first.1, first.2.2) hts
  have hkeysmid : ∀ x ∈ mid.map (fun e => (e.1, mkCacheItem cfg e)),
      x.1 ≠ (first.1, mkCacheItem cfg first).1 := by
    intro x hx
    obtain ⟨y, hy, rfl⟩ := List.mem_map.mp hx
    intro hc
    exact hndparts.1
      (hc ▸ List.mem_map.mpr ⟨y, List.mem_append.mpr (Or.inl hy), rfl⟩)
  have hevict : (evictOldest (setAll cfg emptyCache (first :: mid))).entries
      = mid.map (fun e => (e.1, mkCacheItem cfg e)) := by
    have hev : evictOldest (setAll cfg emptyCache (first :: mid))
        = { setAll cfg emptyCache (first :: mid) with
            entries := mapDelete (setAll cfg emptyCache (first :: mid)).entries first.1 } := by
      unfold evictOldest
      rw [hscan]
      simp [hkey0]
    rw [hev]
    show mapDelete (setAll cfg emptyCache (first :: mid)).entries first.1 = _
    rw [hfillE]
    exact mapDelete_cons_head (first.1, mkCacheItem cfg first) _ hkeysmid
  have hany : (mid.map (fun e => (e.1, mkCacheItem cfg e))).any
      (fun x => x.1 == last.1) = false := by
    cases h : (mid.map (fun e => (e.1, mkCacheItem cfg e))).any (fun x => x.1 == last.1) with
    | false => rfl
    | true =>
        exfalso
        have hm := (any_key_iff _ last.1).mp h
        rw [List.map_map] at hm
        simp only [Function.comp_def] at hm
        exact hndlastmid hm
  have hlast : (setAll cfg (setAll cfg emptyCache (first :: mid)) [last]).entries
      = (mid ++ [last]).map (fun e => (e.1, mkCacheItem cfg e)) := by
    show (setAll cfg (cacheSet cfg (setAll cfg emptyCache (first :: mid))
      last.2.2 last.1 last.2.1 none) []).entries = _
    show (cacheSet cfg (setAll cfg emptyCache (first :: mid))
      last.2.2 last.1 last.2.1 none).entries = _
    rw [cacheSet_entries cfg _ last.2.2 last.1 last.2.1 none hen, if_pos hlenF, hevict]
    unfold mapSet
    rw [hany]
    simp [mkCacheItem, actualTTL]
  have hsFE : (setAll cfg emptyCache (first :: (mid ++ [last]))).entries
      = (mid ++ [last]).map (fun e => (e.1, mkCacheItem cfg e)) := by
    rw [hsplit]
    exact hlast
  constructor
  · have hnotmem : first.1
        ∉ (setAll cfg emptyCache (first :: (mid ++ [last]))).entries.map (fun x => x.1) := by
      rw [hsFE, List.map_map]
      simp only [Function.comp_def]
      exact hndparts.1
    rw [cacheGet_eq_absent cfg _ tg first.1 hen (mapGet_eq_none_of_not_mem _ _ hnotmem)]
  · intro e he
    have hmem : (e.1, mkCacheItem cfg e)
        ∈ (setAll cfg emptyCache (first :: (mid ++ [last]))).entries := by
      rw [hsFE]
      exact List.mem_map.mpr ⟨e, he, rfl⟩
    have hndkeys : ((setAll cfg emptyCache (first :: (mid ++ [last]))).entries.map
        (fun x => x.1)).Nodup := by
      rw [hsFE, List.map_map]
      simpa only [Function.comp_def] using hndparts.2
    have hget := mapGet_of_mem_nodup _ e.1 (mkCacheItem cfg e) hmem hndkeys
    have hnexp : ¬ (mkCacheItem cfg e).expiresAt < tg := by
      have h1 := hmono1 e he
      simp only [mkCacheItem, not_lt]
      omega
    rw [cacheGet_eq_hit cfg _ tg e.1 (mkCacheItem cfg e) hen hget hnexp]
    rfl

/-- C8 amended, witnessed: capacity 2, inserting keys `a`, `b`, `c` at times
0, 1, 2 evicts exactly `a`; `b` and `c` remain retrievable at time 3. -/
theorem C8_eviction_witness :
    (cacheGet { ttl := 10, maxSize := 2, enabled := true }
      (setAll { ttl := 10, maxSize := 2, enabled := true } emptyCache
        [("a", "va", 0), ("b", "vb", 1), ("c", "vc", 2)]) 3 "a").1 = none ∧
    (cacheGet { ttl := 10, maxSize := 2, enabled := true }
      (setAll { ttl := 10, maxSize := 2, enabled := true } emptyCache
        [("a", "va", 0), ("b", "vb", 1), ("c", "vc", 2)]) 3 "b").1 = some "vb" ∧
    (cacheGet { ttl := 10, maxSize := 2, enabled := true }
      (setAll { ttl := 10, maxSize := 2, enabled := true } emptyCache
        [("a", "va", 0), ("b", "vb", 1), ("c", "vc", 2)]) 3 "c").1 = some "vc" := by
  have h := C8_eviction String { ttl := 10, maxSize := 2, enabled := true }
    ("a", "va", 0) [("b", "vb", 1)] ("c", "vc", 2) 3 rfl rfl (by decide) (by decide)
    (by decide) (by decide)
  exact ⟨h.1, h.2 ("b", "vb", 1) (by simp), h.2 ("c", "vc", 2) (by simp)⟩
